import Mathlib

/-!
Verification of the KGLM annotation encoder (`enhanced_wikitext.py`) and the
discriminative KGLM scorer (`kglm_disc.py`) from the `kglm-model` repository.

The encoder (`EnhancedWikitextKglmReader.text_to_instance`) is embedded as an
executable Lean function over a shallow model of one document.  Python `None`
values are `Option.none`; a Python exception (e.g. `IndexError` raised by
`normalize_entity_id` on an empty id) is `Except.error ()`.

The scorer's numeric computations (`KglmDisc._forward_loop` and its loss
helpers) are embedded over exact reals `ℝ`: float tensors become lists of
reals, `torch.logsumexp` becomes `Real.log` of a sum of `Real.exp`, and the
float literals `1e-45` / `1e-13` become the exact rationals `10⁻⁴⁵` / `10⁻¹³`.
-/

/-- `DEFAULT_PADDING_TOKEN` from `allennlp.data.vocabulary`, used by the
reader as the padding sentinel for every label array. -/
def DEFAULT_PADDING_TOKEN : String := "@@PADDING@@"

/-- `MAX_PARENTS = 10` from `enhanced_wikitext.py` line 24. -/
def MAX_PARENTS : Nat := 10

/-- `_flatten(nested)` from `enhanced_wikitext.py`:
`[x for seq in nested for x in seq]`. -/
def flattenTokens (nested : List (List String)) : List String :=
  nested.flatMap id

/-- One entry of a document's `annotations` list: fields `id`, `parent_id`,
`relation`, `span` of the persisted JSON annotation format. -/
structure Ann where
  id : String
  parent_id : List String
  relation : List String
  span : Nat × Nat
deriving DecidableEq, Repr

/-- `normalize_entity_id` from `enhanced_wikitext.py` lines 116-125.
`raw_entity_id[0]` raises `IndexError` on the empty string, which is modelled
as `Except.error ()`; the Python `None` result (id not trackable) is
`Except.ok none`. -/
def normalize_entity_id (raw_entity_id : String) : Except Unit (Option String) :=
  match raw_entity_id.data with
  | [] => Except.error ()
  | c :: _ =>
    if c = 'T' then Except.ok (some "@@DATE@@")
    else if c = 'V' then Except.ok (some "@@QUANTITY@@")
    else if c = 'P' ∨ c = 'Q' then Except.ok (some raw_entity_id)
    else Except.ok none

/-- The reader's `mode` argument: one of `"generative"`, `"discriminative"`
(any other string raises a `ConfigurationError` at construction). -/
inductive KglmMode where
  | generative
  | discriminative
deriving DecidableEq, Repr

/-- `offset = 0 if self._mode == "generative" else 1`
(`enhanced_wikitext.py` line 248). -/
def KglmMode.offset : KglmMode → Nat
  | .generative => 0
  | .discriminative => 1

/-- The token stream of `text_to_instance` (lines 187-188):
`tokens = ['@@START@@', *_flatten(data['tokens']), '@@END@@']`. -/
def kglmTokens (docTokens : List (List String)) : List String :=
  "@@START@@" :: (flattenTokens docTokens ++ ["@@END@@"])

/-- `len(target)` where `target = tokens[1:]`: the common length of every
label array produced by the reader. -/
def targetLen (docTokens : List (List String)) : Nat :=
  (kglmTokens docTokens).length - 1

/-- The label arrays built by `EnhancedWikitextKglmReader.text_to_instance`
together with the running shortlist.  Cells that can hold Python `None`
(normalized parent ids) have type `Option String`; every other string cell is
a plain `String`.  `alias_copy_inds` is only placed in the instance in
generative mode, but its backing array is carried here uniformly (it is only
written in generative mode, matching the source). -/
structure KglmFields where
  shortlist : List String
  raw_entity_ids : List String
  entity_ids : List String
  relations : List (List String)
  parent_ids : List (List (Option String))
  shortlist_inds : List Nat
  mention_type : List Nat
  alias_copy_inds : List Nat
deriving DecidableEq, Repr

/-- The arrays as first set up on lines 210-221: shortlist `[pad]`,
string arrays filled with the padding token, relation/parent rows `[pad]`,
numeric arrays zero. -/
def initFields (n : Nat) : KglmFields where
  shortlist := [DEFAULT_PADDING_TOKEN]
  raw_entity_ids := List.replicate n DEFAULT_PADDING_TOKEN
  entity_ids := List.replicate n DEFAULT_PADDING_TOKEN
  relations := List.replicate n [DEFAULT_PADDING_TOKEN]
  parent_ids := List.replicate n [some DEFAULT_PADDING_TOKEN]
  shortlist_inds := List.replicate n 0
  mention_type := List.replicate n 0
  alias_copy_inds := List.replicate n 0

/-- The body of `for i in range(*annotation['span'])` (lines 249-261) for a
single `i`.  `uid` is `AliasDatabase.token_to_uid` (external collaborator),
`tokens` the sentinel-bracketed stream.  In the source an out-of-range write
raises `IndexError`; `List.set` is a no-op out of range, so the embedding
agrees with the source on every document the source processes successfully
(the positional theorems below carry in-bounds hypotheses). -/
def writeOne (mode : KglmMode) (uid : String → String → Nat)
    (tokens : List String) (raw_entity_id entity_id : String)
    (parent_id : List (Option String)) (relation : List String)
    (new_entity : Bool) (shortlist_ind : Nat)
    (st : KglmFields) (i : Nat) : KglmFields :=
  let j := i + mode.offset
  { st with
    raw_entity_ids := st.raw_entity_ids.set j raw_entity_id
    entity_ids := st.entity_ids.set j entity_id
    mention_type := st.mention_type.set j (if new_entity then 1 else 2)
    shortlist_inds :=
      if new_entity then st.shortlist_inds.set j shortlist_ind
      else st.shortlist_inds
    relations :=
      if new_entity then st.relations
      else st.relations.set j (relation.take MAX_PARENTS)
    parent_ids :=
      if new_entity then st.parent_ids
      else st.parent_ids.set j (parent_id.take MAX_PARENTS)
    alias_copy_inds :=
      if mode = KglmMode.generative then
        st.alias_copy_inds.set j (uid raw_entity_id (tokens.getD (i + 1) ""))
      else st.alias_copy_inds }

/-- `if entity_id not in reverse_shortlist: ... shortlist.append(entity_id)`
(lines 239-241).  The dict `reverse_shortlist` always maps exactly the
entries of `shortlist` to their indices, so the list alone carries the
state. -/
def shortlistStep (sl : List String) (e : String) : List String :=
  if e ∈ sl then sl else sl ++ [e]

/-- `shortlist_ind = reverse_shortlist[entity_id]` (line 242): the index of
the entity in the (already updated) shortlist. -/
def shortlistIndex (sl : List String) (e : String) : Nat :=
  if e ∈ sl then sl.indexOf e else sl.length

/-- One iteration of `for annotation in data['annotations']`
(lines 224-261).  A `None` normalized entity id skips the annotation;
an empty raw id propagates the `IndexError` from `normalize_entity_id`. -/
def processAnn (mode : KglmMode) (uid : String → String → Nat)
    (tokens : List String) (st : KglmFields) (a : Ann) :
    Except Unit KglmFields :=
  match normalize_entity_id a.id with
  | Except.error e => Except.error e
  | Except.ok none => Except.ok st
  | Except.ok (some entity_id) =>
    match a.parent_id.mapM normalize_entity_id with
    | Except.error e => Except.error e
    | Except.ok parent_id =>
      let new_entity : Bool := a.relation = ["@@NEW@@"]
      let sl := shortlistStep st.shortlist entity_id
      let ind := shortlistIndex st.shortlist entity_id
      let st' := { st with shortlist := sl }
      Except.ok <|
        (List.range' a.span.1 (a.span.2 - a.span.1)).foldl
          (writeOne mode uid tokens a.id entity_id parent_id a.relation
            new_entity ind)
          st'

/-- The annotated part of `text_to_instance` (lines 205-284): fold the
annotations over the freshly built arrays. -/
def kglmEncode (mode : KglmMode) (uid : String → String → Nat)
    (docTokens : List (List String)) (anns : List Ann) :
    Except Unit KglmFields :=
  anns.foldlM (processAnn mode uid (kglmTokens docTokens))
    (initFields (targetLen docTokens))

/-! ### Generic helper lemmas -/

theorem except_ok_bind {α β ε : Type} (a : α) (f : α → Except ε β) :
    (Except.ok a >>= f) = f a := rfl

theorem except_error_bind {α β ε : Type} (e : ε) (f : α → Except ε β) :
    ((Except.error e : Except ε α) >>= f) = Except.error e := rfl

theorem foldlM_ok_cons {α β ε : Type} {f : β → α → Except ε β} {b r : β}
    {a : α} {l : List α} (h : (a :: l).foldlM f b = Except.ok r) :
    ∃ m, f b a = Except.ok m ∧ l.foldlM f m = Except.ok r := by
  rw [List.foldlM_cons] at h
  cases hfa : f b a with
  | error e => rw [hfa, except_error_bind] at h; cases h
  | ok m => rw [hfa, except_ok_bind] at h; exact ⟨m, rfl, h⟩

theorem foldlM_ok_append {α β ε : Type} {f : β → α → Except ε β} {b r : β}
    {l l' : List α} (h : (l ++ l').foldlM f b = Except.ok r) :
    ∃ m, l.foldlM f b = Except.ok m ∧ l'.foldlM f m = Except.ok r := by
  rw [List.foldlM_append] at h
  cases hl : l.foldlM f b with
  | error e => rw [hl, except_error_bind] at h; cases h
  | ok m => rw [hl, except_ok_bind] at h; exact ⟨m, rfl, h⟩

theorem mapM_except_length {α β ε : Type} {f : α → Except ε β}
    {l : List α} {r : List β} (h : l.mapM f = Except.ok r) :
    r.length = l.length := by
  induction l generalizing r with
  | nil => rw [List.mapM_nil] at h; cases h; rfl
  | cons a l ih =>
    rw [List.mapM_cons] at h
    cases ha : f a with
    | error e => rw [ha, except_error_bind] at h; cases h
    | ok b =>
      rw [ha, except_ok_bind] at h
      cases hl : l.mapM f with
      | error e => rw [hl, except_error_bind] at h; cases h
      | ok bs =>
        rw [hl, except_ok_bind] at h
        cases h
        simp [ih hl]

theorem getD_set_self {α : Type} (l : List α) (i : Nat) (v d : α)
    (h : i < l.length) : (l.set i v).getD i d = v := by
  simp [List.getD_eq_getElem?_getD, List.getElem?_set, h]

theorem getD_set_ne {α : Type} (l : List α) {i j : Nat} (v d : α)
    (h : i ≠ j) : (l.set i v).getD j d = l.getD j d := by
  simp [List.getD_eq_getElem?_getD, List.getElem?_set, h]

theorem getD_replicate' {α : Type} {n i : Nat} (a d : α) (h : i < n) :
    (List.replicate n a).getD i d = a := by
  simp [List.getD_eq_getElem?_getD, List.getElem?_replicate, h]

/-! ### Array-length invariants (claim C6) -/

/-- The lengths of the seven label arrays. -/
def KglmFields.dims (st : KglmFields) : List Nat :=
  [st.raw_entity_ids.length, st.entity_ids.length, st.relations.length,
   st.parent_ids.length, st.shortlist_inds.length, st.mention_type.length,
   st.alias_copy_inds.length]

theorem writeOne_dims (mode uid tokens rid eid pid rel ne ind st i) :
    (writeOne mode uid tokens rid eid pid rel ne ind st i).dims = st.dims := by
  simp only [writeOne, KglmFields.dims]
  split <;> split <;> simp [List.length_set]

theorem foldl_writeOne_dims (mode uid tokens rid eid pid rel ne ind)
    (l : List Nat) (st : KglmFields) :
    (l.foldl (writeOne mode uid tokens rid eid pid rel ne ind) st).dims
      = st.dims := by
  induction l generalizing st with
  | nil => rfl
  | cons x xs ih => rw [List.foldl_cons, ih, writeOne_dims]

theorem processAnn_dims {mode uid tokens st a st'}
    (h : processAnn mode uid tokens st a = Except.ok st') :
    st'.dims = st.dims := by
  unfold processAnn at h
  cases hn : normalize_entity_id a.id with
  | error e => rw [hn] at h; cases h
  | ok o =>
    rw [hn] at h
    cases o with
    | none => cases h; rfl
    | some eid =>
      cases hp : a.parent_id.mapM normalize_entity_id with
      | error e => rw [hp] at h; cases h
      | ok pid =>
        rw [hp] at h
        cases h
        rw [foldl_writeOne_dims]
        rfl

theorem foldlM_processAnn_dims {mode uid tokens st out}
    {anns : List Ann}
    (h : anns.foldlM (processAnn mode uid tokens) st = Except.ok out) :
    out.dims = st.dims := by
  induction anns generalizing st with
  | nil => rw [List.foldlM_nil] at h; cases h; rfl
  | cons a l ih =>
    obtain ⟨m, hm, hrest⟩ := foldlM_ok_cons h
    rw [ih hrest, processAnn_dims hm]

/-- C6: for every document processed with annotations present, each per-token
label array (raw entity ids, entity ids, parent ids, relations, mention
types, shortlist indices, and the alias-copy indices written in generative
mode) has length `len(tokens) - 1`, where `tokens` is the flattened token
stream bracketed with the start/end sentinels. -/
theorem label_arrays_length (mode : KglmMode) (uid : String → String → Nat)
    (docTokens : List (List String)) (anns : List Ann) (out : KglmFields)
    (h : kglmEncode mode uid docTokens anns = Except.ok out) :
    out.raw_entity_ids.length = (kglmTokens docTokens).length - 1 ∧
    out.entity_ids.length = (kglmTokens docTokens).length - 1 ∧
    out.relations.length = (kglmTokens docTokens).length - 1 ∧
    out.parent_ids.length = (kglmTokens docTokens).length - 1 ∧
    out.shortlist_inds.length = (kglmTokens docTokens).length - 1 ∧
    out.mention_type.length = (kglmTokens docTokens).length - 1 ∧
    out.alias_copy_inds.length = (kglmTokens docTokens).length - 1 := by
  have hd := foldlM_processAnn_dims h
  simp only [KglmFields.dims, initFields, List.length_replicate,
    targetLen, List.cons.injEq, and_true] at hd
  exact ⟨hd.1, hd.2.1, hd.2.2.1, hd.2.2.2.1, hd.2.2.2.2.1,
    hd.2.2.2.2.2.1, hd.2.2.2.2.2.2⟩

theorem label_arrays_length_witness :
    kglmEncode KglmMode.generative (fun _ _ => 0) [["a"]] []
        = Except.ok (initFields (targetLen [["a"]])) ∧
    ((initFields (targetLen [["a"]])).raw_entity_ids.length
        = (kglmTokens [["a"]]).length - 1 ∧
     (initFields (targetLen [["a"]])).entity_ids.length
        = (kglmTokens [["a"]]).length - 1 ∧
     (initFields (targetLen [["a"]])).relations.length
        = (kglmTokens [["a"]]).length - 1 ∧
     (initFields (targetLen [["a"]])).parent_ids.length
        = (kglmTokens [["a"]]).length - 1 ∧
     (initFields (targetLen [["a"]])).shortlist_inds.length
        = (kglmTokens [["a"]]).length - 1 ∧
     (initFields (targetLen [["a"]])).mention_type.length
        = (kglmTokens [["a"]]).length - 1 ∧
     (initFields (targetLen [["a"]])).alias_copy_inds.length
        = (kglmTokens [["a"]]).length - 1) :=
  ⟨rfl, label_arrays_length KglmMode.generative (fun _ _ => 0) [["a"]] []
    (initFields (targetLen [["a"]])) rfl⟩

/-- C10: `normalize_entity_id` is total exactly on non-empty raw ids: the
empty string hits `raw_entity_id[0]` and raises `IndexError`
(`Except.error`), every non-empty string returns normally. -/
theorem normalize_entity_id_empty_errors :
    normalize_entity_id "" = Except.error () ∧
    ∀ s : String, s ≠ "" → ∃ r, normalize_entity_id s = Except.ok r := by
  refine ⟨rfl, fun s hs => ?_⟩
  obtain ⟨l⟩ := s
  cases l with
  | nil => exact absurd rfl hs
  | cons c cs =>
    unfold normalize_entity_id
    simp only
    split
    · exact ⟨some "@@DATE@@", rfl⟩
    · split
      · exact ⟨some "@@QUANTITY@@", rfl⟩
      · split
        · exact ⟨some ⟨c :: cs⟩, rfl⟩
        · exact ⟨none, rfl⟩

theorem normalize_entity_id_empty_errors_witness :
    ("Q1" : String) ≠ "" ∧ ∃ r, normalize_entity_id "Q1" = Except.ok r :=
  ⟨by decide, normalize_entity_id_empty_errors.2 "Q1" (by decide)⟩

/-! ### Skipped annotations (claim C7) -/

theorem processAnn_skip {mode uid tokens st a}
    (h : normalize_entity_id a.id = Except.ok none) :
    processAnn mode uid tokens st a = Except.ok st := by
  unfold processAnn
  rw [h]

/-- C7: an annotation whose entity id normalizes to `None` is skipped
entirely: encoding with it present equals encoding with it removed, so it
writes no labels, adds no shortlist entry and raises no error, while every
other annotation is processed exactly as before. -/
theorem skipped_ann_no_effect (mode : KglmMode) (uid : String → String → Nat)
    (docTokens : List (List String)) (pre post : List Ann) (a : Ann)
    (h : normalize_entity_id a.id = Except.ok none) :
    kglmEncode mode uid docTokens (pre ++ a :: post)
      = kglmEncode mode uid docTokens (pre ++ post) := by
  unfold kglmEncode
  have step : ∀ m : KglmFields,
      (a :: post).foldlM (processAnn mode uid (kglmTokens docTokens)) m
        = post.foldlM (processAnn mode uid (kglmTokens docTokens)) m := by
    intro m
    rw [List.foldlM_cons, processAnn_skip h, except_ok_bind]
  cases hpre : pre.foldlM (processAnn mode uid (kglmTokens docTokens))
      (initFields (targetLen docTokens)) with
  | error e =>
    rw [List.foldlM_append, List.foldlM_append, hpre, except_error_bind,
      except_error_bind]
  | ok m =>
    rw [List.foldlM_append, List.foldlM_append, hpre, except_ok_bind,
      except_ok_bind, step m]

theorem skipped_ann_no_effect_witness :
    normalize_entity_id "x" = Except.ok none ∧
    kglmEncode KglmMode.generative (fun _ _ => 0) [["a"]]
        ([] ++ Ann.mk "x" [] [] (0, 1) :: [])
      = kglmEncode KglmMode.generative (fun _ _ => 0) [["a"]] ([] ++ []) :=
  ⟨rfl, skipped_ann_no_effect KglmMode.generative (fun _ _ => 0) [["a"]]
    [] [] (Ann.mk "x" [] [] (0, 1)) rfl⟩

/-! ### Positional reasoning: preservation away from an index -/

/-- The two field states agree at target position `j` in all seven label
arrays. -/
def agreesAt (j : Nat) (s t : KglmFields) : Prop :=
  s.raw_entity_ids.getD j "" = t.raw_entity_ids.getD j "" ∧
  s.entity_ids.getD j "" = t.entity_ids.getD j "" ∧
  s.relations.getD j [] = t.relations.getD j [] ∧
  s.parent_ids.getD j [] = t.parent_ids.getD j [] ∧
  s.shortlist_inds.getD j 0 = t.shortlist_inds.getD j 0 ∧
  s.mention_type.getD j 0 = t.mention_type.getD j 0 ∧
  s.alias_copy_inds.getD j 0 = t.alias_copy_inds.getD j 0

theorem agreesAt_refl (j : Nat) (s : KglmFields) : agreesAt j s s :=
  ⟨rfl, rfl, rfl, rfl, rfl, rfl, rfl⟩

theorem agreesAt_trans {j : Nat} {s t u : KglmFields}
    (h1 : agreesAt j s t) (h2 : agreesAt j t u) : agreesAt j s u := by
  obtain ⟨a1, a2, a3, a4, a5, a6, a7⟩ := h1
  obtain ⟨b1, b2, b3, b4, b5, b6, b7⟩ := h2
  exact ⟨a1.trans b1, a2.trans b2, a3.trans b3, a4.trans b4, a5.trans b5,
    a6.trans b6, a7.trans b7⟩

theorem writeOne_agreesAt {mode : KglmMode} (uid tokens rid eid pid rel ne ind)
    (st : KglmFields) {i j : Nat} (h : i + mode.offset ≠ j) :
    agreesAt j (writeOne mode uid tokens rid eid pid rel ne ind st i) st := by
  unfold writeOne agreesAt
  refine ⟨getD_set_ne _ _ _ h, getD_set_ne _ _ _ h, ?_, ?_, ?_, ?_, ?_⟩ <;>
    simp only <;> split <;>
    first
      | rfl
      | exact getD_set_ne _ _ _ h

theorem foldl_writeOne_agreesAt {mode : KglmMode}
    (uid tokens rid eid pid rel ne ind) (l : List Nat) (st : KglmFields)
    {j : Nat} (h : ∀ i ∈ l, i + mode.offset ≠ j) :
    agreesAt j (l.foldl (writeOne mode uid tokens rid eid pid rel ne ind) st)
      st := by
  induction l generalizing st with
  | nil => exact agreesAt_refl j st
  | cons x xs ih =>
    rw [List.foldl_cons]
    exact agreesAt_trans
      (ih _ (fun i hi => h i (List.mem_cons_of_mem _ hi)))
      (writeOne_agreesAt uid tokens rid eid pid rel ne ind st
        (h x (List.mem_cons_self _ _)))

theorem processAnn_agreesAt {mode uid tokens st a st'} {j : Nat}
    (h : processAnn mode uid tokens st a = Except.ok st')
    (hmiss : normalize_entity_id a.id = Except.ok none ∨
      ∀ i, a.span.1 ≤ i → i < a.span.2 → i + mode.offset ≠ j) :
    agreesAt j st' st := by
  unfold processAnn at h
  cases hn : normalize_entity_id a.id with
  | error e => rw [hn] at h; cases h
  | ok o =>
    rw [hn] at h
    cases o with
    | none => cases h; exact agreesAt_refl j st
    | some eid =>
      cases hp : a.parent_id.mapM normalize_entity_id with
      | error e => rw [hp] at h; cases h
      | ok pid =>
        rw [hp] at h
        cases h
        have hmiss' : ∀ i, a.span.1 ≤ i → i < a.span.2 →
            i + mode.offset ≠ j := by
          rcases hmiss with hskip | hmiss'
          · rw [hn] at hskip; cases hskip
          · exact hmiss'
        refine agreesAt_trans
          (foldl_writeOne_agreesAt _ _ _ _ _ _ _ _ _ _ (fun i hi => ?_))
          (agreesAt_refl j _)
        have hb := List.mem_range'_1.mp hi
        exact hmiss' i hb.1 (by omega)

theorem foldlM_processAnn_agreesAt {mode uid tokens st out} {j : Nat}
    {anns : List Ann}
    (h : anns.foldlM (processAnn mode uid tokens) st = Except.ok out)
    (hmiss : ∀ b ∈ anns, normalize_entity_id b.id = Except.ok none ∨
      ∀ i, b.span.1 ≤ i → i < b.span.2 → i + mode.offset ≠ j) :
    agreesAt j out st := by
  induction anns generalizing st with
  | nil => rw [List.foldlM_nil] at h; cases h; exact agreesAt_refl _ _
  | cons b l ih =>
    obtain ⟨m, hm, hrest⟩ := foldlM_ok_cons h
    exact agreesAt_trans
      (ih hrest (fun b' hb' => hmiss b' (List.mem_cons_of_mem _ hb')))
      (processAnn_agreesAt hm (hmiss b (List.mem_cons_self _ _)))

/-! ### Positional reasoning: the written values at an index -/

theorem range'_split {s n i : Nat} (hs : s ≤ i) (hi : i < s + n) :
    List.range' s n
      = List.range' s (i - s) ++ i :: List.range' (i + 1) (n - (i - s) - 1) := by
  have e1 : s + 1 * (i - s) = i := by omega
  have e2 : (n - (i - s)) + (i - s) = n := by omega
  have e3 : n - (i - s) = (n - (i - s) - 1) + 1 := by omega
  calc List.range' s n
      = List.range' s ((n - (i - s)) + (i - s)) := by rw [e2]
    _ = List.range' s (i - s) ++ List.range' (s + 1 * (i - s)) (n - (i - s)) :=
        (List.range'_append s (i - s) (n - (i - s)) 1).symm
    _ = List.range' s (i - s) ++ List.range' i ((n - (i - s) - 1) + 1) := by
        rw [e1, ← e3]
    _ = List.range' s (i - s) ++ i :: List.range' (i + 1) (n - (i - s) - 1) := by
        rw [List.range'_succ]

theorem foldl_writeOne_shortlist (mode uid tokens rid eid pid rel ne ind)
    (l : List Nat) (st : KglmFields) :
    (l.foldl (writeOne mode uid tokens rid eid pid rel ne ind) st).shortlist
      = st.shortlist := by
  induction l generalizing st with
  | nil => rfl
  | cons x xs ih => rw [List.foldl_cons, ih]; rfl

/-- The values `writeOne` stores at its own position `j = i + offset`. -/
theorem writeOne_getD_self {mode : KglmMode} (uid tokens rid eid pid rel ne ind)
    (st : KglmFields) (i : Nat)
    (hlen : ∀ k ∈ st.dims, i + mode.offset < k) :
    (writeOne mode uid tokens rid eid pid rel ne ind st i).raw_entity_ids.getD
        (i + mode.offset) "" = rid ∧
    (writeOne mode uid tokens rid eid pid rel ne ind st i).entity_ids.getD
        (i + mode.offset) "" = eid ∧
    (writeOne mode uid tokens rid eid pid rel ne ind st i).mention_type.getD
        (i + mode.offset) 0 = (if ne then 1 else 2) ∧
    (writeOne mode uid tokens rid eid pid rel ne ind st i).shortlist_inds.getD
        (i + mode.offset) 0
      = (if ne then ind else st.shortlist_inds.getD (i + mode.offset) 0) ∧
    (writeOne mode uid tokens rid eid pid rel ne ind st i).relations.getD
        (i + mode.offset) []
      = (if ne then st.relations.getD (i + mode.offset) []
         else rel.take MAX_PARENTS) ∧
    (writeOne mode uid tokens rid eid pid rel ne ind st i).parent_ids.getD
        (i + mode.offset) []
      = (if ne then st.parent_ids.getD (i + mode.offset) []
         else pid.take MAX_PARENTS) := by
  have h1 : i + mode.offset < st.raw_entity_ids.length :=
    hlen _ (by simp [KglmFields.dims])
  have h2 : i + mode.offset < st.entity_ids.length :=
    hlen _ (by simp [KglmFields.dims])
  have h3 : i + mode.offset < st.relations.length :=
    hlen _ (by simp [KglmFields.dims])
  have h4 : i + mode.offset < st.parent_ids.length :=
    hlen _ (by simp [KglmFields.dims])
  have h5 : i + mode.offset < st.shortlist_inds.length :=
    hlen _ (by simp [KglmFields.dims])
  have h6 : i + mode.offset < st.mention_type.length :=
    hlen _ (by simp [KglmFields.dims])
  unfold writeOne
  refine ⟨getD_set_self _ _ _ _ h1, getD_set_self _ _ _ _ h2,
    getD_set_self _ _ _ _ h6, ?_, ?_, ?_⟩ <;>
    simp only <;> split <;>
    first
      | rfl
      | exact getD_set_self _ _ _ _ h5
      | exact getD_set_self _ _ _ _ h3
      | exact getD_set_self _ _ _ _ h4

/-- After the whole span loop of one annotation, position `j = i + offset`
holds the values written by iteration `i` (later iterations of the same
annotation write strictly larger positions). -/
theorem foldl_writeOne_getD {mode : KglmMode} (uid tokens rid eid pid rel ne ind)
    {s n : Nat} (st : KglmFields) {i : Nat} (hs : s ≤ i) (hi : i < s + n)
    (hlen : ∀ k ∈ st.dims, i + mode.offset < k) :
    ((List.range' s n).foldl
        (writeOne mode uid tokens rid eid pid rel ne ind) st).raw_entity_ids.getD
        (i + mode.offset) "" = rid ∧
    ((List.range' s n).foldl
        (writeOne mode uid tokens rid eid pid rel ne ind) st).entity_ids.getD
        (i + mode.offset) "" = eid ∧
    ((List.range' s n).foldl
        (writeOne mode uid tokens rid eid pid rel ne ind) st).mention_type.getD
        (i + mode.offset) 0 = (if ne then 1 else 2) ∧
    ((List.range' s n).foldl
        (writeOne mode uid tokens rid eid pid rel ne ind) st).shortlist_inds.getD
        (i + mode.offset) 0
      = (if ne then ind else st.shortlist_inds.getD (i + mode.offset) 0) ∧
    ((List.range' s n).foldl
        (writeOne mode uid tokens rid eid pid rel ne ind) st).relations.getD
        (i + mode.offset) []
      = (if ne then st.relations.getD (i + mode.offset) []
         else rel.take MAX_PARENTS) ∧
    ((List.range' s n).foldl
        (writeOne mode uid tokens rid eid pid rel ne ind) st).parent_ids.getD
        (i + mode.offset) []
      = (if ne then st.parent_ids.getD (i + mode.offset) []
         else pid.take MAX_PARENTS) := by
  rw [range'_split hs hi, List.foldl_append, List.foldl_cons]
  set st1 := (List.range' s (i - s)).foldl
    (writeOne mode uid tokens rid eid pid rel ne ind) st with hst1
  have hpre : agreesAt (i + mode.offset) st1 st :=
    foldl_writeOne_agreesAt uid tokens rid eid pid rel ne ind _ st
      (fun i' hi' => by
        have hb := List.mem_range'_1.mp hi'
        omega)
  have hdims1 : st1.dims = st.dims :=
    foldl_writeOne_dims mode uid tokens rid eid pid rel ne ind _ st
  have hlen1 : ∀ k ∈ st1.dims, i + mode.offset < k := by
    rw [hdims1]; exact hlen
  have hw := writeOne_getD_self uid tokens rid eid pid rel ne ind st1 i hlen1
  have hpost : agreesAt (i + mode.offset)
      ((List.range' (i + 1) (n - (i - s) - 1)).foldl
        (writeOne mode uid tokens rid eid pid rel ne ind)
        (writeOne mode uid tokens rid eid pid rel ne ind st1 i))
      (writeOne mode uid tokens rid eid pid rel ne ind st1 i) :=
    foldl_writeOne_agreesAt uid tokens rid eid pid rel ne ind _ _
      (fun i' hi' => by
        have hb := List.mem_range'_1.mp hi'
        omega)
  obtain ⟨p1, p2, p3, p4, p5, p6, p7⟩ := hpost
  obtain ⟨q1, q2, q3, q4, q5, q6, q7⟩ := hpre
  obtain ⟨w1, w2, w3, w4, w5, w6⟩ := hw
  refine ⟨p1.trans w1, p2.trans w2, p6.trans w3, ?_, ?_, ?_⟩
  · rw [p5, w4]
    split
    · rfl
    · exact q5
  · rw [p3, w5]
    split
    · exact q3
    · rfl
  · rw [p4, w6]
    split
    · exact q4
    · rfl

/-- Values written by one non-skipped annotation at one of its own span
positions (bounds hypotheses reflect that the source raises `IndexError`
outside the arrays). -/
theorem processAnn_value {mode : KglmMode} {uid tokens st a st' eid pid}
    (h : processAnn mode uid tokens st a = Except.ok st')
    (hn : normalize_entity_id a.id = Except.ok (some eid))
    (hp : a.parent_id.mapM normalize_entity_id = Except.ok pid)
    {i : Nat} (hi1 : a.span.1 ≤ i) (hi2 : i < a.span.2)
    (hlen : ∀ k ∈ st.dims, i + mode.offset < k) :
    st'.raw_entity_ids.getD (i + mode.offset) "" = a.id ∧
    st'.entity_ids.getD (i + mode.offset) "" = eid ∧
    st'.mention_type.getD (i + mode.offset) 0
      = (if a.relation = ["@@NEW@@"] then 1 else 2) ∧
    st'.shortlist_inds.getD (i + mode.offset) 0
      = (if a.relation = ["@@NEW@@"] then shortlistIndex st.shortlist eid
         else st.shortlist_inds.getD (i + mode.offset) 0) ∧
    st'.relations.getD (i + mode.offset) []
      = (if a.relation = ["@@NEW@@"] then st.relations.getD (i + mode.offset) []
         else a.relation.take MAX_PARENTS) ∧
    st'.parent_ids.getD (i + mode.offset) []
      = (if a.relation = ["@@NEW@@"]
         then st.parent_ids.getD (i + mode.offset) []
         else pid.take MAX_PARENTS) ∧
    st'.shortlist = shortlistStep st.shortlist eid := by
  unfold processAnn at h
  rw [hn, hp] at h
  cases h
  have hi2' : i < a.span.1 + (a.span.2 - a.span.1) := by omega
  have hg := foldl_writeOne_getD uid tokens a.id eid pid a.relation
    (decide (a.relation = ["@@NEW@@"])) (shortlistIndex st.shortlist eid)
    { st with shortlist := shortlistStep st.shortlist eid } hi1 hi2'
    (by
      intro k hk
      exact hlen k hk)
  obtain ⟨g1, g2, g3, g4, g5, g6⟩ := hg
  have hsl := foldl_writeOne_shortlist mode uid tokens a.id eid pid a.relation
    (decide (a.relation = ["@@NEW@@"])) (shortlistIndex st.shortlist eid)
    (List.range' a.span.1 (a.span.2 - a.span.1))
    { st with shortlist := shortlistStep st.shortlist eid }
  refine ⟨g1, g2, ?_, ?_, ?_, ?_, hsl⟩
  · rw [g3]
    by_cases hne : a.relation = ["@@NEW@@"] <;> simp [hne]
  · rw [g4]
    by_cases hne : a.relation = ["@@NEW@@"] <;> simp [hne]
  · rw [g5]
    by_cases hne : a.relation = ["@@NEW@@"] <;> simp [hne]
  · rw [g6]
    by_cases hne : a.relation = ["@@NEW@@"] <;> simp [hne]

/-! ### Claim C8: derived annotations -/

/-- C8: a derived annotation (relations ≠ `["@@NEW@@"]`) that is not skipped
writes, at every position of its span that no later annotation overwrites,
mention type 2 and parent/relation lists that keep the first `MAX_PARENTS`
entries in given order, both of length `min(number of given parents,
MAX_PARENTS)` with `MAX_PARENTS = 10` (the alignment hypothesis
`relations.length = parent_ids.length` is the data-model 1:1 contract the
source relies on). -/
theorem derived_ann_values (mode : KglmMode) (uid : String → String → Nat)
    (docTokens : List (List String)) (pre post : List Ann) (a : Ann)
    (out : KglmFields) (eid : String) (pid : List (Option String)) (i : Nat)
    (henc : kglmEncode mode uid docTokens (pre ++ a :: post) = Except.ok out)
    (hn : normalize_entity_id a.id = Except.ok (some eid))
    (hder : a.relation ≠ ["@@NEW@@"])
    (hp : a.parent_id.mapM normalize_entity_id = Except.ok pid)
    (hi1 : a.span.1 ≤ i) (hi2 : i < a.span.2)
    (hj : i + mode.offset < targetLen docTokens)
    (halign : a.relation.length = a.parent_id.length)
    (hlater : ∀ b ∈ post, normalize_entity_id b.id = Except.ok none ∨
      ∀ i', b.span.1 ≤ i' → i' < b.span.2 →
        i' + mode.offset ≠ i + mode.offset) :
    MAX_PARENTS = 10 ∧
    out.mention_type.getD (i + mode.offset) 0 = 2 ∧
    out.relations.getD (i + mode.offset) [] = a.relation.take MAX_PARENTS ∧
    out.parent_ids.getD (i + mode.offset) [] = pid.take MAX_PARENTS ∧
    pid.length = a.parent_id.length ∧
    (out.relations.getD (i + mode.offset) []).length
      = min a.parent_id.length MAX_PARENTS ∧
    (out.parent_ids.getD (i + mode.offset) []).length
      = min a.parent_id.length MAX_PARENTS := by
  unfold kglmEncode at henc
  obtain ⟨st1, hpre, hrest⟩ := foldlM_ok_append henc
  obtain ⟨st2, ha, hpost⟩ := foldlM_ok_cons hrest
  have hdims1 : st1.dims = (initFields (targetLen docTokens)).dims :=
    foldlM_processAnn_dims hpre
  have hlen1 : ∀ k ∈ st1.dims, i + mode.offset < k := by
    rw [hdims1]
    simp only [KglmFields.dims, initFields, List.length_replicate]
    intro k hk
    simp only [List.mem_cons, List.not_mem_nil, or_false] at hk
    rcases hk with h | h | h | h | h | h | h <;> omega
  have hv := processAnn_value ha hn hp hi1 hi2 hlen1
  have hagree : agreesAt (i + mode.offset) out st2 :=
    foldlM_processAnn_agreesAt hpost hlater
  obtain ⟨v1, v2, v3, v4, v5, v6, v7⟩ := hv
  obtain ⟨a1, a2, a3, a4, a5, a6, a7⟩ := hagree
  have hplen : pid.length = a.parent_id.length := mapM_except_length hp
  rw [if_neg hder] at v3 v5 v6
  refine ⟨rfl, a6.trans v3, a3.trans v5, a4.trans v6, hplen, ?_, ?_⟩
  · rw [a3.trans v5, List.length_take, halign, Nat.min_comm]
  · rw [a4.trans v6, List.length_take, hplen, Nat.min_comm]

theorem derived_ann_values_witness :
    kglmEncode KglmMode.generative (fun _ _ => 5) [["a", "b"]]
        ([] ++ Ann.mk "Q1" ["Q2"] ["R1"] (0, 1) :: [])
      = Except.ok
          (KglmFields.mk ["@@PADDING@@", "Q1"]
            ["Q1", "@@PADDING@@", "@@PADDING@@"]
            ["Q1", "@@PADDING@@", "@@PADDING@@"]
            [["R1"], ["@@PADDING@@"], ["@@PADDING@@"]]
            [[some "Q2"], [some "@@PADDING@@"], [some "@@PADDING@@"]]
            [0, 0, 0] [2, 0, 0] [5, 0, 0]) ∧
    (0 : Nat) + KglmMode.generative.offset < targetLen [["a", "b"]] ∧
    (KglmFields.mk ["@@PADDING@@", "Q1"]
            ["Q1", "@@PADDING@@", "@@PADDING@@"]
            ["Q1", "@@PADDING@@", "@@PADDING@@"]
            [["R1"], ["@@PADDING@@"], ["@@PADDING@@"]]
            [[some "Q2"], [some "@@PADDING@@"], [some "@@PADDING@@"]]
            [0, 0, 0] [2, 0, 0] [5, 0, 0]).mention_type.getD
        (0 + KglmMode.generative.offset) 0 = 2 ∧
    (KglmFields.mk ["@@PADDING@@", "Q1"]
            ["Q1", "@@PADDING@@", "@@PADDING@@"]
            ["Q1", "@@PADDING@@", "@@PADDING@@"]
            [["R1"], ["@@PADDING@@"], ["@@PADDING@@"]]
            [[some "Q2"], [some "@@PADDING@@"], [some "@@PADDING@@"]]
            [0, 0, 0] [2, 0, 0] [5, 0, 0]).relations.getD
        (0 + KglmMode.generative.offset) []
      = (["R1"] : List String).take MAX_PARENTS :=
  have henc : kglmEncode KglmMode.generative (fun _ _ => 5) [["a", "b"]]
      ([] ++ Ann.mk "Q1" ["Q2"] ["R1"] (0, 1) :: [])
    = Except.ok
        (KglmFields.mk ["@@PADDING@@", "Q1"]
          ["Q1", "@@PADDING@@", "@@PADDING@@"]
          ["Q1", "@@PADDING@@", "@@PADDING@@"]
          [["R1"], ["@@PADDING@@"], ["@@PADDING@@"]]
          [[some "Q2"], [some "@@PADDING@@"], [some "@@PADDING@@"]]
          [0, 0, 0] [2, 0, 0] [5, 0, 0]) := rfl
  have hmain := derived_ann_values KglmMode.generative (fun _ _ => 5)
    [["a", "b"]] [] [] (Ann.mk "Q1" ["Q2"] ["R1"] (0, 1))
    (KglmFields.mk ["@@PADDING@@", "Q1"]
      ["Q1", "@@PADDING@@", "@@PADDING@@"]
      ["Q1", "@@PADDING@@", "@@PADDING@@"]
      [["R1"], ["@@PADDING@@"], ["@@PADDING@@"]]
      [[some "Q2"], [some "@@PADDING@@"], [some "@@PADDING@@"]]
      [0, 0, 0] [2, 0, 0] [5, 0, 0])
    "Q1" [some "Q2"] 0 henc rfl (by decide) rfl (by decide) (by decide)
    (by decide) rfl (by simp)
  ⟨henc, by decide, hmain.2.1, hmain.2.2.1⟩

/-! ### Claim C9: new annotations and the shortlist -/

/-- The normalized entity ids of the annotations the reader actually
processes (skipped and erroring ones excluded), in document order. -/
def processedIds (anns : List Ann) : List String :=
  anns.filterMap (fun a =>
    match normalize_entity_id a.id with
    | Except.ok (some e) => some e
    | _ => none)

/-- The shortlist the reader ends up with: padding sentinel first, then each
processed entity id in order of first occurrence. -/
def documentShortlist (anns : List Ann) : List String :=
  (processedIds anns).foldl shortlistStep [DEFAULT_PADDING_TOKEN]

theorem indexOf_append_singleton {l : List String} {e : String}
    (h : e ∉ l) : (l ++ [e]).indexOf e = l.length := by
  induction l with
  | nil => simp [List.indexOf_cons_self]
  | cons x xs ih =>
    have hx : x ≠ e := fun he => h (he ▸ List.mem_cons_self x xs)
    have hxs : e ∉ xs := fun he => h (List.mem_cons_of_mem _ he)
    simp only [List.cons_append, List.indexOf_cons_ne _ hx, ih hxs,
      List.length_cons, Nat.succ_eq_add_one]

theorem mem_shortlistStep_self (sl : List String) (e : String) :
    e ∈ shortlistStep sl e := by
  unfold shortlistStep
  split
  · assumption
  · exact List.mem_append_right _ (List.mem_singleton.mpr rfl)

theorem mem_shortlistStep_mono {sl : List String} {x : String} (e : String)
    (h : x ∈ sl) : x ∈ shortlistStep sl e := by
  unfold shortlistStep
  split
  · exact h
  · exact List.mem_append_left _ h

theorem indexOf_shortlistStep_stable {sl : List String} {x : String}
    (e : String) (h : x ∈ sl) :
    (shortlistStep sl e).indexOf x = sl.indexOf x := by
  unfold shortlistStep
  split
  · rfl
  · exact List.indexOf_append_of_mem h

theorem shortlistIndex_eq_indexOf (sl : List String) (e : String) :
    shortlistIndex sl e = (shortlistStep sl e).indexOf e := by
  unfold shortlistIndex shortlistStep
  split
  · rfl
  · rw [indexOf_append_singleton (by assumption)]

theorem foldl_shortlistStep_mem {x : String} (l : List String)
    (sl : List String) (h : x ∈ sl) : x ∈ l.foldl shortlistStep sl := by
  induction l generalizing sl with
  | nil => exact h
  | cons e es ih => exact ih _ (mem_shortlistStep_mono e h)

theorem foldl_shortlistStep_indexOf {x : String} (l : List String)
    (sl : List String) (h : x ∈ sl) :
    (l.foldl shortlistStep sl).indexOf x = sl.indexOf x := by
  induction l generalizing sl with
  | nil => rfl
  | cons e es ih =>
    rw [List.foldl_cons, ih _ (mem_shortlistStep_mono e h),
      indexOf_shortlistStep_stable e h]

theorem foldl_shortlistStep_head {p : String} (l : List String)
    {sl : List String} {t : List String} (h : sl = p :: t) :
    ∃ t', l.foldl shortlistStep sl = p :: t' := by
  induction l generalizing sl t with
  | nil => exact ⟨t, h⟩
  | cons e es ih =>
    rw [List.foldl_cons]
    unfold shortlistStep
    split
    · exact ih h
    · exact ih (by rw [h, List.cons_append])

theorem processAnn_shortlist {mode uid tokens st a st'}
    (h : processAnn mode uid tokens st a = Except.ok st') :
    st'.shortlist =
      match normalize_entity_id a.id with
      | Except.ok (some e) => shortlistStep st.shortlist e
      | _ => st.shortlist := by
  unfold processAnn at h
  cases hn : normalize_entity_id a.id with
  | error e => rw [hn] at h; cases h
  | ok o =>
    rw [hn] at h
    cases o with
    | none => cases h; rfl
    | some eid =>
      cases hp : a.parent_id.mapM normalize_entity_id with
      | error e => rw [hp] at h; cases h
      | ok pid =>
        rw [hp] at h
        cases h
        rw [foldl_writeOne_shortlist]

theorem foldlM_processAnn_shortlist {mode uid tokens st out}
    {anns : List Ann}
    (h : anns.foldlM (processAnn mode uid tokens) st = Except.ok out) :
    out.shortlist = (processedIds anns).foldl shortlistStep st.shortlist := by
  induction anns generalizing st with
  | nil => rw [List.foldlM_nil] at h; cases h; rfl
  | cons a l ih =>
    obtain ⟨m, hm, hrest⟩ := foldlM_ok_cons h
    have hsl := processAnn_shortlist hm
    rw [ih hrest]
    unfold processedIds
    cases hn : normalize_entity_id a.id with
    | error e =>
      unfold processAnn at hm
      rw [hn] at hm
      cases hm
    | ok o =>
      rw [hn] at hsl
      cases o with
      | none => simp only [List.filterMap_cons, hn, hsl, processedIds]
      | some eid => simp only [List.filterMap_cons, hn, List.foldl_cons, hsl,
          processedIds]

/-- A successfully normalized entity id is never the padding sentinel. -/
theorem normalize_ne_padding {s e : String}
    (h : normalize_entity_id s = Except.ok (some e)) :
    e ≠ DEFAULT_PADDING_TOKEN := by
  unfold normalize_entity_id at h
  cases hd : s.data with
  | nil => rw [hd] at h; cases h
  | cons c cs =>
    rw [hd] at h
    dsimp only at h
    by_cases h1 : c = 'T'
    · rw [if_pos h1] at h
      cases h
      decide
    · rw [if_neg h1] at h
      by_cases h2 : c = 'V'
      · rw [if_pos h2] at h
        cases h
        decide
      · rw [if_neg h2] at h
        by_cases h3 : c = 'P' ∨ c = 'Q'
        · rw [if_pos h3] at h
          cases h
          intro he
          have : s.data = DEFAULT_PADDING_TOKEN.data := by rw [he]
          rw [hd] at this
          have hc : c = '@' := by
            have := List.head_eq_of_cons_eq this
            simpa using this
          rcases h3 with h3 | h3 <;> simp [h3] at hc
        · rw [if_neg h3] at h
          cases h

/-- C9: a non-skipped annotation with relations `["@@NEW@@"]` writes, at
every span position no later annotation overwrites, mention type 1 and a
strictly positive shortlist index; the final shortlist is the padding
sentinel followed by the processed entity ids in order of first occurrence,
the written index is the entity's position in that list, and re-encoding the
same document yields identical shortlists and shortlist indices. -/
theorem new_ann_values (mode : KglmMode) (uid : String → String → Nat)
    (docTokens : List (List String)) (pre post : List Ann) (a : Ann)
    (out : KglmFields) (eid : String) (i : Nat)
    (henc : kglmEncode mode uid docTokens (pre ++ a :: post) = Except.ok out)
    (hn : normalize_entity_id a.id = Except.ok (some eid))
    (hnew : a.relation = ["@@NEW@@"])
    (hi1 : a.span.1 ≤ i) (hi2 : i < a.span.2)
    (hj : i + mode.offset < targetLen docTokens)
    (hlater : ∀ b ∈ post, normalize_entity_id b.id = Except.ok none ∨
      ∀ i', b.span.1 ≤ i' → i' < b.span.2 →
        i' + mode.offset ≠ i + mode.offset) :
    out.mention_type.getD (i + mode.offset) 0 = 1 ∧
    out.shortlist = documentShortlist (pre ++ a :: post) ∧
    out.shortlist_inds.getD (i + mode.offset) 0
      = (documentShortlist (pre ++ a :: post)).indexOf eid ∧
    0 < out.shortlist_inds.getD (i + mode.offset) 0 ∧
    (∀ out2, kglmEncode mode uid docTokens (pre ++ a :: post)
        = Except.ok out2 →
      out2.shortlist = out.shortlist ∧
      out2.shortlist_inds = out.shortlist_inds) := by
  unfold kglmEncode at henc
  obtain ⟨st1, hpre, hrest⟩ := foldlM_ok_append henc
  obtain ⟨st2, ha, hpost⟩ := foldlM_ok_cons hrest
  cases hp : a.parent_id.mapM normalize_entity_id with
  | error e =>
    exfalso
    unfold processAnn at ha
    rw [hn, hp] at ha
    cases ha
  | ok pid =>
  have hdims1 : st1.dims = (initFields (targetLen docTokens)).dims :=
    foldlM_processAnn_dims hpre
  have hlen1 : ∀ k ∈ st1.dims, i + mode.offset < k := by
    rw [hdims1]
    simp only [KglmFields.dims, initFields, List.length_replicate]
    intro k hk
    simp only [List.mem_cons, List.not_mem_nil, or_false] at hk
    rcases hk with h | h | h | h | h | h | h <;> omega
  have hv := processAnn_value ha hn hp hi1 hi2 hlen1
  obtain ⟨v1, v2, v3, v4, v5, v6, v7⟩ := hv
  rw [if_pos hnew] at v3 v4
  have hagree : agreesAt (i + mode.offset) out st2 :=
    foldlM_processAnn_agreesAt hpost hlater
  obtain ⟨a1, a2, a3, a4, a5, a6, a7⟩ := hagree
  -- shortlist bookkeeping
  have hsl1 : st1.shortlist
      = (processedIds pre).foldl shortlistStep [DEFAULT_PADDING_TOKEN] :=
    foldlM_processAnn_shortlist hpre
  have hslout : out.shortlist
      = (processedIds post).foldl shortlistStep st2.shortlist :=
    foldlM_processAnn_shortlist hpost
  have hids : processedIds (pre ++ a :: post)
      = processedIds pre ++ eid :: processedIds post := by
    unfold processedIds
    rw [List.filterMap_append, List.filterMap_cons, hn]
  have hdoc : documentShortlist (pre ++ a :: post) = out.shortlist := by
    unfold documentShortlist
    rw [hids, List.foldl_append, List.foldl_cons, ← hsl1, ← v7, hslout]
  have hmem2 : eid ∈ st2.shortlist := by
    rw [v7]
    exact mem_shortlistStep_self st1.shortlist eid
  have hind : shortlistIndex st1.shortlist eid = out.shortlist.indexOf eid := by
    rw [hslout, foldl_shortlistStep_indexOf _ _ hmem2, v7,
      shortlistIndex_eq_indexOf]
  have hpad : ∃ t, out.shortlist = DEFAULT_PADDING_TOKEN :: t := by
    have h1 : ∃ t, st1.shortlist = DEFAULT_PADDING_TOKEN :: t := by
      rw [hsl1]
      exact foldl_shortlistStep_head _ rfl
    obtain ⟨t1, ht1⟩ := h1
    have h2 : ∃ t, st2.shortlist = DEFAULT_PADDING_TOKEN :: t := by
      rw [v7, ht1]
      unfold shortlistStep
      split
      · exact ⟨t1, rfl⟩
      · exact ⟨t1 ++ [eid], by rw [List.cons_append]⟩
    obtain ⟨t2, ht2⟩ := h2
    rw [hslout]
    exact foldl_shortlistStep_head _ ht2
  have hmemout : eid ∈ out.shortlist := by
    rw [hslout]
    exact foldl_shortlistStep_mem _ _ hmem2
  have hposout : 0 < out.shortlist.indexOf eid := by
    obtain ⟨t, ht⟩ := hpad
    rw [ht] at hmemout ⊢
    rw [List.indexOf_cons_ne _ (Ne.symm (normalize_ne_padding hn))]
    exact Nat.succ_pos _
  refine ⟨a6.trans v3, hdoc.symm, ?_, ?_, ?_⟩
  · rw [a5, v4, hind, hdoc]
  · rw [a5, v4, hind]
    exact hposout
  · intro out2 h2
    rw [kglmEncode] at h2
    rw [henc] at h2
    cases h2
    exact ⟨rfl, rfl⟩

theorem new_ann_values_witness :
    kglmEncode KglmMode.generative (fun _ _ => 5) [["a", "b"]]
        ([] ++ Ann.mk "Q1" [] ["@@NEW@@"] (0, 1) :: [])
      = Except.ok
          (KglmFields.mk ["@@PADDING@@", "Q1"]
            ["Q1", "@@PADDING@@", "@@PADDING@@"]
            ["Q1", "@@PADDING@@", "@@PADDING@@"]
            [["@@PADDING@@"], ["@@PADDING@@"], ["@@PADDING@@"]]
            [[some "@@PADDING@@"], [some "@@PADDING@@"], [some "@@PADDING@@"]]
            [1, 0, 0] [1, 0, 0] [5, 0, 0]) ∧
    (0 : Nat) + KglmMode.generative.offset < targetLen [["a", "b"]] ∧
    (KglmFields.mk ["@@PADDING@@", "Q1"]
            ["Q1", "@@PADDING@@", "@@PADDING@@"]
            ["Q1", "@@PADDING@@", "@@PADDING@@"]
            [["@@PADDING@@"], ["@@PADDING@@"], ["@@PADDING@@"]]
            [[some "@@PADDING@@"], [some "@@PADDING@@"], [some "@@PADDING@@"]]
            [1, 0, 0] [1, 0, 0] [5, 0, 0]).mention_type.getD
        (0 + KglmMode.generative.offset) 0 = 1 ∧
    (KglmFields.mk ["@@PADDING@@", "Q1"]
            ["Q1", "@@PADDING@@", "@@PADDING@@"]
            ["Q1", "@@PADDING@@", "@@PADDING@@"]
            [["@@PADDING@@"], ["@@PADDING@@"], ["@@PADDING@@"]]
            [[some "@@PADDING@@"], [some "@@PADDING@@"], [some "@@PADDING@@"]]
            [1, 0, 0] [1, 0, 0] [5, 0, 0]).shortlist
      = documentShortlist ([] ++ Ann.mk "Q1" [] ["@@NEW@@"] (0, 1) :: []) ∧
    0 < (KglmFields.mk ["@@PADDING@@", "Q1"]
            ["Q1", "@@PADDING@@", "@@PADDING@@"]
            ["Q1", "@@PADDING@@", "@@PADDING@@"]
            [["@@PADDING@@"], ["@@PADDING@@"], ["@@PADDING@@"]]
            [[some "@@PADDING@@"], [some "@@PADDING@@"], [some "@@PADDING@@"]]
            [1, 0, 0] [1, 0, 0] [5, 0, 0]).shortlist_inds.getD
        (0 + KglmMode.generative.offset) 0 :=
  have henc : kglmEncode KglmMode.generative (fun _ _ => 5) [["a", "b"]]
      ([] ++ Ann.mk "Q1" [] ["@@NEW@@"] (0, 1) :: [])
    = Except.ok
        (KglmFields.mk ["@@PADDING@@", "Q1"]
          ["Q1", "@@PADDING@@", "@@PADDING@@"]
          ["Q1", "@@PADDING@@", "@@PADDING@@"]
          [["@@PADDING@@"], ["@@PADDING@@"], ["@@PADDING@@"]]
          [[some "@@PADDING@@"], [some "@@PADDING@@"], [some "@@PADDING@@"]]
          [1, 0, 0] [1, 0, 0] [5, 0, 0]) := rfl
  have hmain := new_ann_values KglmMode.generative (fun _ _ => 5)
    [["a", "b"]] [] [] (Ann.mk "Q1" [] ["@@NEW@@"] (0, 1))
    (KglmFields.mk ["@@PADDING@@", "Q1"]
      ["Q1", "@@PADDING@@", "@@PADDING@@"]
      ["Q1", "@@PADDING@@", "@@PADDING@@"]
      [["@@PADDING@@"], ["@@PADDING@@"], ["@@PADDING@@"]]
      [[some "@@PADDING@@"], [some "@@PADDING@@"], [some "@@PADDING@@"]]
      [1, 0, 0] [1, 0, 0] [5, 0, 0])
    "Q1" 0 henc rfl rfl (by decide) (by decide) (by decide) (by simp)
  ⟨henc, by decide, hmain.1, hmain.2.1, hmain.2.2.2.1⟩

/-! ### The scorer `KglmDisc` (`kglm_disc.py`) -/

/-- The constructor defaults `alpha: float = 2.0` (`kglm_disc.py` line 50):
the activation-regularization coefficient. -/
def alpha_default : ℝ := 2

/-- The constructor default `beta: float = 1.0` (`kglm_disc.py` line 51):
the temporal-activation-regularization coefficient. -/
def beta_default : ℝ := 1

/-- Lines 459-468 of `_forward_loop`:
`loss = mention_type_loss + new_entity_loss + knowledge_graph_entity_loss`,
then `if self._alpha: loss = loss + self._alpha * alpha_loss` and
`if self._beta: loss = loss + self._beta * beta_loss` (Python float
truthiness: the branch is taken iff the coefficient is nonzero). -/
noncomputable def forwardLoopLoss
    (alpha beta mention_type_loss new_entity_loss kg_entity_loss
      alpha_loss beta_loss : ℝ) : ℝ :=
  let loss := mention_type_loss + new_entity_loss + kg_entity_loss
  let loss := if alpha ≠ 0 then loss + alpha * alpha_loss else loss
  if beta ≠ 0 then loss + beta * beta_loss else loss

/-- C1 counterexample: with the default constructor arguments
(`alpha = 2.0`, `beta = 1.0`) and unit regularization penalties, the total
loss is not `mentionTypeLoss + newEntityLoss + kgEntityLoss`: the penalties
are not zero-weighted by default. -/
theorem forward_loop_loss_default_cex :
    forwardLoopLoss alpha_default beta_default 0 0 0 1 1 ≠ 0 + 0 + 0 := by
  unfold forwardLoopLoss alpha_default beta_default
  norm_num

/-- C1 (amended): the total loss is the three model losses plus
`alpha * alphaLoss` whenever `alpha ≠ 0` and `beta * betaLoss` whenever
`beta ≠ 0`; the defaults are `alpha = 2.0`, `beta = 1.0`, so with default
constructor arguments both penalties contribute, and they contribute
nothing exactly when the model is constructed with `alpha = beta = 0`. -/
theorem forward_loop_loss_eq (mtl nel kgl aL bL : ℝ) :
    forwardLoopLoss alpha_default beta_default mtl nel kgl aL bL
      = mtl + nel + kgl + alpha_default * aL + beta_default * bL ∧
    forwardLoopLoss 0 0 mtl nel kgl aL bL = mtl + nel + kgl := by
  unfold forwardLoopLoss alpha_default beta_default
  norm_num

/-- The cross-call state carried by a `KglmDisc` instance: `self._state`
(the per-layer recurrent hidden state, `None` after a reset) of some state
type `σ`, the internal per-slot sets of `self._recent_entities` of some
type `κ`, and the `torch.nn.Module` training flag. -/
structure KglmDiscState (σ κ : Type) where
  rnn_state : Option σ
  recent_entities : κ
  training : Bool
deriving Repr

/-- `KglmDisc.train` (lines 471-478): `super().train(mode)` sets the
training flag, then `self._state = None`.  Nothing touches
`self._recent_entities`. -/
def KglmDisc.train {σ κ : Type} (mode : Bool) (m : KglmDiscState σ κ) :
    KglmDiscState σ κ :=
  { m with training := mode, rnn_state := none }

/-- `KglmDisc.eval` (lines 480-484): `super().eval()` clears the training
flag, then `self._state = None`.  Nothing touches
`self._recent_entities`. -/
def KglmDisc.eval {σ κ : Type} (m : KglmDiscState σ κ) : KglmDiscState σ κ :=
  { m with training := false, rnn_state := none }

/-- C2 counterexample: switching phases with a recent-entities cache holding
the entity 7 leaves the cache exactly as it was — the carried recent-entity
information survives both `train(mode)` and `eval()`, contradicting the
claim that both kinds of carried state are invalidated. -/
theorem train_eval_keep_recent_entities_cex :
    (KglmDisc.train true
        (KglmDiscState.mk (σ := Nat) (some 0) [7] false)).recent_entities
      = [7] ∧
    (KglmDisc.eval
        (KglmDiscState.mk (σ := Nat) (some 0) [7] true)).recent_entities
      = [7] ∧
    ([7] : List Nat) ≠ [] :=
  ⟨rfl, rfl, by decide⟩

/-- C2 (amended): `train(mode)` and `eval()` invalidate the recurrent
encoder state (it becomes `None`), but the recent-entities cache is left
untouched by the phase switch — it is only cleared per batch slot by the
`reset` flags of the next `forward` call. -/
theorem train_eval_state_reset (σ κ : Type) (mode : Bool)
    (m : KglmDiscState σ κ) :
    (KglmDisc.train mode m).rnn_state = none ∧
    (KglmDisc.train mode m).recent_entities = m.recent_entities ∧
    (KglmDisc.train mode m).training = mode ∧
    (KglmDisc.eval m).rnn_state = none ∧
    (KglmDisc.eval m).recent_entities = m.recent_entities ∧
    (KglmDisc.eval m).training = false :=
  ⟨rfl, rfl, rfl, rfl, rfl, rfl⟩

/-! ### Real-valued tensor helpers -/

/-- The float literal `1e-45` (mask floor in `_parent_log_probs` and fill
value `math.log(1e-45)` in `_relation_log_probs`), as the exact rational. -/
noncomputable def eps45 : ℝ := 1 / 10 ^ 45

/-- The float literal `1e-13` in the loss denominators, as the exact
rational. -/
noncomputable def eps13 : ℝ := 1 / 10 ^ 13

/-- `torch.logsumexp` along a list. -/
noncomputable def logsumexp (xs : List ℝ) : ℝ :=
  Real.log (xs.map Real.exp).sum

/-- `.float()` on a boolean tensor entry. -/
noncomputable def boolIndicator (b : Bool) : ℝ := if b then 1 else 0

/-- `mask.sum()` for a boolean tensor. -/
noncomputable def maskCount (m : List Bool) : ℝ := (m.map boolIndicator).sum

theorem getD_zipWith' {α β γ : Type} (f : α → β → γ) (as : List α)
    (bs : List β) (i : Nat) (da : α) (db : β) (dc : γ)
    (ha : i < as.length) (hb : i < bs.length) :
    (List.zipWith f as bs).getD i dc = f (as.getD i da) (bs.getD i db) := by
  simp [List.getD_eq_getElem?_getD, List.getElem?_zipWith,
    List.getElem?_eq_getElem, ha, hb]

theorem getD_map' {α β : Type} (f : α → β) (l : List α) (i : Nat)
    (da : α) (db : β) (h : i < l.length) :
    (l.map f).getD i db = f (l.getD i da) := by
  simp [List.getD_eq_getElem?_getD, List.getElem?_map,
    List.getElem?_eq_getElem, h]

theorem sum_eq_range_getD {M : Type} [AddCommMonoid M] (l : List M) :
    l.sum = ∑ i ∈ Finset.range l.length, l.getD i 0 := by
  induction l with
  | nil => simp
  | cons x xs ih =>
    rw [List.sum_cons, List.length_cons, Finset.sum_range_succ', ih]
    simp [List.getD_cons_succ, List.getD_cons_zero, add_comm]

/-! ### Claim C3: `_knowledge_graph_entity_loss` -/

/-- `_knowledge_graph_entity_loss` (`kglm_disc.py` lines 379-401) after the
two log-probability tensors have been computed: add them elementwise,
log-sum-exp over the parent axis, zero the positions whose gold parent list
is all padding (`mask = ~parent_ids.eq(0).all(dim=-1)`), and return
`-target_log_probs.sum() / (target_mask.sum() + 1e-13)`. -/
noncomputable def kgEntityLoss (parent_log_probs relation_log_probs :
    List (List ℝ)) (parent_ids : List (List Nat))
    (target_mask : List Bool) : ℝ :=
  -(List.zipWith (fun t m => t * boolIndicator m)
      ((List.zipWith (List.zipWith (· + ·)) parent_log_probs
        relation_log_probs).map logsumexp)
      (parent_ids.map (fun ps => !ps.all (fun x => decide (x = 0))))).sum
    / (maskCount target_mask + eps13)

/-- C3: the knowledge-graph entity loss is the negated sum, over token
positions, of the per-position log-sum-exp (over the gold parents) of
parent log-probability plus relation log-probability — taken as zero at
positions whose parent list is all padding — divided by the count of valid
target positions plus `1e-13`; and that denominator is strictly positive,
so the division never divides by zero, even on a fully-masked batch. -/
theorem kg_entity_loss_eq (plp rlp : List (List ℝ))
    (pids : List (List Nat)) (tmask : List Bool)
    (h1 : plp.length = pids.length) (h2 : rlp.length = pids.length) :
    kgEntityLoss plp rlp pids tmask
      = -(∑ p ∈ Finset.range pids.length,
          if (pids.getD p []).all (fun x => decide (x = 0)) then 0
          else logsumexp
            (List.zipWith (· + ·) (plp.getD p []) (rlp.getD p [])))
        / (maskCount tmask + eps13) ∧
    0 < maskCount tmask + eps13 := by
  have hpos : 0 < maskCount tmask + eps13 := by
    have h0 : 0 ≤ maskCount tmask := by
      refine List.sum_nonneg ?_
      intro x hx
      obtain ⟨b, _, hb⟩ := List.mem_map.mp hx
      rw [← hb]
      unfold boolIndicator
      split <;> norm_num
    have he : (0 : ℝ) < eps13 := by norm_num [eps13]
    linarith
  refine ⟨?_, hpos⟩
  unfold kgEntityLoss
  have hlc : (List.zipWith (List.zipWith (· + ·)) plp rlp).length
      = pids.length := by
    rw [List.length_zipWith, h1, h2]
    exact Nat.min_self _
  have hlt : ((List.zipWith (List.zipWith (· + ·)) plp rlp).map
      logsumexp).length = pids.length := by
    rw [List.length_map, hlc]
  have hlm : (pids.map (fun ps => !ps.all (fun x => decide (x = 0)))).length
      = pids.length := List.length_map _ _
  have hlz : (List.zipWith (fun t m => t * boolIndicator m)
      ((List.zipWith (List.zipWith (· + ·)) plp rlp).map logsumexp)
      (pids.map (fun ps => !ps.all (fun x => decide (x = 0))))).length
      = pids.length := by
    rw [List.length_zipWith, hlt, hlm]
    exact Nat.min_self _
  have hsum : (List.zipWith (fun t m => t * boolIndicator m)
      ((List.zipWith (List.zipWith (· + ·)) plp rlp).map logsumexp)
      (pids.map (fun ps => !ps.all (fun x => decide (x = 0))))).sum
      = ∑ p ∈ Finset.range pids.length,
          if (pids.getD p []).all (fun x => decide (x = 0)) then 0
          else logsumexp
            (List.zipWith (· + ·) (plp.getD p []) (rlp.getD p [])) := by
    rw [sum_eq_range_getD, hlz]
    refine Finset.sum_congr rfl ?_
    intro p hp
    have hp' : p < pids.length := Finset.mem_range.mp hp
    rw [getD_zipWith' _ _ _ _ 0 false _ (by omega : p < _) (by omega : p < _)]
    rw [getD_map' _ _ _ [] _ (by omega : p < _)]
    rw [getD_map' _ _ _ [] _ hp']
    rw [getD_zipWith' _ _ _ _ [] [] _ (by omega : p < _) (by omega : p < _)]
    by_cases hall : (pids.getD p []).all (fun x => decide (x = 0))
    · rw [if_pos hall, hall]
      simp [boolIndicator]
    · rw [if_neg hall, Bool.not_eq_true] at *
      rw [(by simp_all : (pids.getD p []).all (fun x => decide (x = 0))
        = false)]
      simp [boolIndicator, hall]
  rw [hsum]

theorem kg_entity_loss_eq_witness :
    ([[0]] : List (List ℝ)).length = ([[1]] : List (List Nat)).length ∧
    (kgEntityLoss [[0]] [[0]] [[1]] [true]
      = -(∑ p ∈ Finset.range ([[1]] : List (List Nat)).length,
          if (([[1]] : List (List Nat)).getD p []).all
              (fun x => decide (x = 0)) then 0
          else logsumexp (List.zipWith (· + ·)
            (([[0]] : List (List ℝ)).getD p [])
            (([[0]] : List (List ℝ)).getD p [])))
        / (maskCount [true] + eps13) ∧
    0 < maskCount [true] + eps13) :=
  ⟨rfl, kg_entity_loss_eq [[0]] [[0]] [[1]] [true] rfl rfl⟩

/-! ### Claim C4: `_parent_log_probs` mask, floor and gather -/

/-- One row of `mask = is_parent & non_null` (`kglm_disc.py` lines 325-331):
broadcast equality of the gold parent id with every candidate id, with the
padding candidate (id 0) excluded. -/
def parentMask (p : Nat) (candidate_ids : List Nat) : List Bool :=
  candidate_ids.map (fun c => decide (p = c) && !decide (c = 0))

/-- `masked_log_probs = log_probs.unsqueeze(2) + (mask.float() + 1e-45).log()`
(line 332): the candidate log-probabilities with the log of the floored
{0,1} indicator added. -/
noncomputable def maskedParentLogProbs (log_probs : List ℝ)
    (mask : List Bool) : List ℝ :=
  List.zipWith (fun x b => x + Real.log (boolIndicator b + eps45))
    log_probs mask

/-- `_, index = torch.max(mask, dim=-1, keepdim=True)` (line 339):
`torch.max` returns the first maximal index, so the first `true` entry when
the mask has one and index 0 otherwise. -/
def maskArgmax (mask : List Bool) : Nat :=
  if true ∈ mask then mask.indexOf true else 0

/-- `torch.gather(masked_log_probs, dim=-1, index=index)` (line 340): the
masked log-probability entry at the arg-max index. -/
noncomputable def parentTargetLogProb (log_probs : List ℝ)
    (candidate_ids : List Nat) (p : Nat) : ℝ :=
  (maskedParentLogProbs log_probs (parentMask p candidate_ids)).getD
    (maskArgmax (parentMask p candidate_ids)) 0

theorem getD_indexOf {l : List Nat} {a : Nat} (h : a ∈ l) :
    l.getD (l.indexOf a) 0 = a := by
  have hlt : l.indexOf a < l.length := List.indexOf_lt_length.mpr h
  rw [List.getD_eq_getElem?_getD, List.getElem?_eq_getElem hlt,
    Option.getD_some]
  exact List.getElem_indexOf hlt

theorem maskArgmax_parentMask {p : Nat} {cands : List Nat}
    (hmem : p ∈ cands) (hp : p ≠ 0) :
    maskArgmax (parentMask p cands) = cands.indexOf p := by
  have htrue : true ∈ parentMask p cands := by
    have hval : (decide (p = p) && !decide (p = 0)) = true := by simp [hp]
    exact hval ▸ List.mem_map_of_mem (fun c => decide (p = c) && !decide (c = 0)) hmem
  rw [maskArgmax, if_pos htrue]
  clear htrue
  induction cands with
  | nil => cases hmem
  | cons c cs ih =>
    by_cases hc : p = c
    · subst hc
      simp [parentMask, hp, List.indexOf_cons_self]
    · have hhead : (decide (p = c) && !decide (c = 0)) = false := by
        simp [hc]
      have hmem' : p ∈ cs := by
        rcases List.mem_cons.mp hmem with h | h
        · exact absurd h hc
        · exact h
      simp only [parentMask, List.map_cons, hhead,
        List.indexOf_cons_ne _ (by simp : (false : Bool) ≠ true),
        List.indexOf_cons_ne _ (fun he => hc he.symm)]
      rw [← parentMask, ih hmem']

/-- Sum of the masked probabilities over candidates none of which matches
the gold parent: every entry carries only the `1e-45` floor. -/
theorem maskedExpSum_not_mem {p : Nat} (xs : List ℝ) (cs : List Nat)
    (hlen : xs.length = cs.length) (hmem : p ∉ cs) :
    ((maskedParentLogProbs xs (parentMask p cs)).map Real.exp).sum
      = eps45 * (xs.map Real.exp).sum := by
  induction cs generalizing xs with
  | nil =>
    cases xs with
    | nil => simp [maskedParentLogProbs, parentMask]
    | cons x xs' => simp at hlen
  | cons c cs' ih =>
    cases xs with
    | nil => simp at hlen
    | cons x xs' =>
      have hc : p ≠ c := by
        intro he
        exact hmem (by rw [he]; exact List.mem_cons_self c cs')
      have hcs : p ∉ cs' := fun hm => hmem (List.mem_cons_of_mem _ hm)
      have hhead : (decide (p = c) && !decide (c = 0)) = false := by
        simp [hc]
      simp only [parentMask, List.map_cons, maskedParentLogProbs,
        List.zipWith_cons_cons, List.sum_cons, hhead]
      rw [← maskedParentLogProbs, ← parentMask,
        ih xs' (by simpa using hlen) hcs]
      have he : Real.exp (x + Real.log (boolIndicator false + eps45))
          = Real.exp x * eps45 := by
        rw [Real.exp_add, Real.exp_log (by norm_num [eps45, boolIndicator])]
        simp [boolIndicator]
      rw [he]
      ring

/-- Sum of the masked probabilities when the gold parent occurs among the
distinct non-padding candidates: the matching candidate contributes its
probability scaled by `1 + 1e-45`, every other candidate contributes its
probability scaled by the `1e-45` floor. -/
theorem maskedExpSum_mem {p : Nat} (xs : List ℝ) (cs : List Nat)
    (hlen : xs.length = cs.length) (hmem : p ∈ cs) (hnd : cs.Nodup)
    (hp : p ≠ 0) :
    ((maskedParentLogProbs xs (parentMask p cs)).map Real.exp).sum
      = (1 + eps45) * Real.exp (xs.getD (cs.indexOf p) 0)
        + eps45 * ((xs.eraseIdx (cs.indexOf p)).map Real.exp).sum := by
  induction cs generalizing xs with
  | nil => cases hmem
  | cons c cs' ih =>
    cases xs with
    | nil => simp at hlen
    | cons x xs' =>
      by_cases hc : c = p
      · subst hc
        have hnotmem : c ∉ cs' := (List.nodup_cons.mp hnd).1
        have hmask : parentMask c (c :: cs') = true :: parentMask c cs' := by
          simp [parentMask, hp]
        rw [hmask, List.indexOf_cons_self, List.getD_cons_zero,
          List.eraseIdx_cons_zero]
        rw [show maskedParentLogProbs (x :: xs') (true :: parentMask c cs')
            = (x + Real.log (boolIndicator true + eps45))
              :: maskedParentLogProbs xs' (parentMask c cs') from rfl]
        rw [List.map_cons, List.sum_cons,
          maskedExpSum_not_mem xs' cs' (by simpa using hlen) hnotmem]
        have he : Real.exp (x + Real.log (boolIndicator true + eps45))
            = Real.exp x * (1 + eps45) := by
          rw [Real.exp_add, Real.exp_log (by norm_num [eps45, boolIndicator])]
          simp [boolIndicator]
        rw [he]
        ring
      · have hcp : p ≠ c := fun he => hc he.symm
        have hhead : (decide (p = c) && !decide (c = 0)) = false := by
          simp [hcp]
        have hmem' : p ∈ cs' := by
          rcases List.mem_cons.mp hmem with h | h
          · exact absurd h.symm hc
          · exact h
        have hnd' : cs'.Nodup := (List.nodup_cons.mp hnd).2
        simp only [parentMask, List.map_cons, maskedParentLogProbs,
          List.zipWith_cons_cons, List.map_cons, List.sum_cons, hhead,
          List.indexOf_cons_ne _ hc, Nat.succ_eq_add_one,
          List.getD_cons_succ, List.eraseIdx_cons_succ]
        rw [← maskedParentLogProbs, ← parentMask,
          ih xs' (by simpa using hlen) hmem' hnd']
        have he : Real.exp (x + Real.log (boolIndicator false + eps45))
            = Real.exp x * eps45 := by
          rw [Real.exp_add, Real.exp_log (by norm_num [eps45, boolIndicator])]
          simp [boolIndicator]
        rw [he]
        ring

/-- C4 (amended): when the gold parent id occurs among the distinct
non-padding candidates, the arg-max gather selects exactly the matching
candidate and returns its floored masked log-probability
`lp[j] + log(1 + 1e-45)`; marginalizing the masked probabilities over the
whole candidate axis instead gives
`log((1 + 1e-45)·exp lp[j] + 1e-45·(mass of all other candidates))` — the
two agree only up to the `1e-45`-floor contribution of the non-matching
candidates (exactly the term the spec's arg-max-based gather avoids
materializing), not exactly. -/
theorem parent_gather_vs_marginal (lp : List ℝ) (cands : List Nat) (p : Nat)
    (hnd : cands.Nodup) (hmem : p ∈ cands) (hp : p ≠ 0)
    (hlen : lp.length = cands.length) :
    maskArgmax (parentMask p cands) = cands.indexOf p ∧
    parentTargetLogProb lp cands p
      = lp.getD (cands.indexOf p) 0 + Real.log (1 + eps45) ∧
    logsumexp (maskedParentLogProbs lp (parentMask p cands))
      = Real.log ((1 + eps45) * Real.exp (lp.getD (cands.indexOf p) 0)
          + eps45 * ((lp.eraseIdx (cands.indexOf p)).map Real.exp).sum) := by
  have hidx : cands.indexOf p < cands.length :=
    List.indexOf_lt_length.mpr hmem
  have hlenmask : (parentMask p cands).length = cands.length := by
    rw [parentMask, List.length_map]
  have hargmax := maskArgmax_parentMask hmem hp
  refine ⟨hargmax, ?_, ?_⟩
  · unfold parentTargetLogProb maskedParentLogProbs
    rw [hargmax]
    rw [getD_zipWith' _ _ _ _ 0 false _ (by omega) (by omega)]
    simp only [parentMask]
    rw [getD_map' _ _ _ 0 _ hidx, getD_indexOf hmem]
    have hval : (decide (p = p) && !decide (p = 0)) = true := by simp [hp]
    rw [hval]
    simp [boolIndicator]
  · unfold logsumexp
    rw [maskedExpSum_mem lp cands hlen hmem hnd hp]

/-- C4 counterexample: two equiprobable distinct non-padding candidates
`[1, 2]` with gold parent 1.  The arg-max gather returns
`log(1/2) + log(1 + 1e-45)` while summing the masked probabilities over the
candidate axis returns `log((1 + 1e-45)/2 + 1e-45/2)`: the `1e-45` floor
keeps a sliver of probability on the non-matching candidate, so the two
values differ in exact arithmetic. -/
theorem parent_gather_vs_marginal_cex :
    ([1, 2] : List Nat).Nodup ∧ (1 : Nat) ∈ ([1, 2] : List Nat) ∧
    (1 : Nat) ≠ 0 ∧
    parentTargetLogProb [Real.log (1 / 2), Real.log (1 / 2)] [1, 2] 1
      ≠ logsumexp (maskedParentLogProbs
          [Real.log (1 / 2), Real.log (1 / 2)] (parentMask 1 [1, 2])) := by
  refine ⟨by decide, by decide, by decide, ?_⟩
  obtain ⟨h1, h2, h3⟩ := parent_gather_vs_marginal
    [Real.log (1 / 2), Real.log (1 / 2)] [1, 2] 1
    (by decide) (by decide) (by decide) rfl
  intro heq
  rw [h2, h3] at heq
  simp only [show List.indexOf 1 [1, 2] = 0 from rfl, List.getD_cons_zero,
    List.eraseIdx_cons_zero, List.map_cons, List.map_nil, List.sum_cons,
    List.sum_nil] at heq
  have hpos : (0 : ℝ) < (1 + eps45) * Real.exp (Real.log (1 / 2))
      + eps45 * (Real.exp (Real.log (1 / 2)) + 0) := by
    have hp2 := Real.exp_pos (Real.log (1 / 2))
    have heps : (0 : ℝ) < eps45 := by norm_num [eps45]
    nlinarith
  have hexp := congrArg Real.exp heq
  rw [Real.exp_add,
    Real.exp_log (by norm_num [eps45] : (0 : ℝ) < 1 + eps45),
    Real.exp_log hpos] at hexp
  have hp2 := Real.exp_pos (Real.log (1 / 2))
  have heps : (0 : ℝ) < eps45 := by norm_num [eps45]
  nlinarith [hexp, hp2, heps]

theorem parent_gather_vs_marginal_witness :
    ([1, 2] : List Nat).Nodup ∧ (1 : Nat) ∈ ([1, 2] : List Nat) ∧
    (1 : Nat) ≠ 0 ∧ ([0, 0] : List ℝ).length = ([1, 2] : List Nat).length ∧
    (maskArgmax (parentMask 1 [1, 2]) = ([1, 2] : List Nat).indexOf 1 ∧
     parentTargetLogProb [0, 0] [1, 2] 1
       = ([0, 0] : List ℝ).getD (([1, 2] : List Nat).indexOf 1) 0
         + Real.log (1 + eps45) ∧
     logsumexp (maskedParentLogProbs [0, 0] (parentMask 1 [1, 2]))
       = Real.log ((1 + eps45)
             * Real.exp (([0, 0] : List ℝ).getD
                 (([1, 2] : List Nat).indexOf 1) 0)
           + eps45 * ((([0, 0] : List ℝ).eraseIdx
               (([1, 2] : List Nat).indexOf 1)).map Real.exp).sum)) :=
  ⟨by decide, by decide, by decide, rfl,
    parent_gather_vs_marginal [0, 0] [1, 2] 1 (by decide) (by decide)
      (by decide) rfl⟩

/-! ### Claim C5: `_relation_log_probs` -/

/-- A directed knowledge-graph edge out of some head entity: its relation id
and tail entity id.  The knowledge graph itself is the external consumed
interface `edgesFrom : entityId -> [(relation, tail)]`; ids absent from the
graph have no edges. -/
structure KGEdge where
  rel : Nat
  tail : Nat
deriving DecidableEq, Repr

/-- `F.log_softmax(logits, dim=-1)` over one logits vector. -/
noncomputable def logSoftmax (xs : List ℝ) : List ℝ :=
  xs.map (fun x => x - logsumexp xs)

/-- All (position, parent-slot) coordinates of the `parent_ids` tensor
(positions flattened). -/
def pairIdx (pids : List (List Nat)) : List (Nat × Nat) :=
  (List.range pids.length).flatMap
    (fun p => (List.range (pids.getD p []).length).map (fun s => (p, s)))

/-- Modelled from the spec: `KnowledgeGraphLookup.__call__` lives in
`kglm.modules`, which is not under `src/`.  Per spec §4.3 the lookup
vectorizes `edgesFrom` per (batch, position, parent-slot) tuple, fetching
each distinct non-padding parent id once, and tolerates parent ids with
zero outgoing edges or absent from the graph (treated as zero-edge) by
producing no group for them, so their slots in the scorer's output tensor
keep the fill value.  Returns, for every tuple whose parent id is
non-padding and has at least one edge, the triple
`(position, slot, parentId)`. -/
def kgLookup (kg : Nat → List KGEdge) (pids : List (List Nat)) :
    List (Nat × Nat × Nat) :=
  (pairIdx pids).filterMap (fun ps =>
    if ((pids.getD ps.1 []).getD ps.2 0 ≠ 0 ∧
        kg ((pids.getD ps.1 []).getD ps.2 0) ≠ [])
    then some (ps.1, ps.2, (pids.getD ps.1 []).getD ps.2 0) else none)

/-- The body of the per-group loop of `_relation_log_probs`
(`kglm_disc.py` lines 363-375) for the group of one (position, slot) pair:
`logits = torch.mv(relation_embedding, encoded[index[:-1]])` scored per
edge (`logit pos rel` abstracts the dot product with the external relation
embedding), `log_probs = F.log_softmax(logits)`, then
`torch.logsumexp(log_probs.masked_select(tail_id.eq(target_id)))` over the
edges whose tail is the gold raw entity id at the position. -/
noncomputable def relationTarget (kg : Nat → List KGEdge)
    (logit : Nat → Nat → ℝ) (raw : List Nat) (pos pid : Nat) : ℝ :=
  logsumexp (((kg pid).zip
      (logSoftmax ((kg pid).map (fun e => logit pos e.rel)))).filterMap
    (fun el => if el.1.tail = raw.getD pos 0 then some el.2 else none))

/-- `target_log_probs[index] = target_log_prob`: one scatter into the
2-d output tensor. -/
def set2d (m : List (List ℝ)) (p s : Nat) (v : ℝ) : List (List ℝ) :=
  m.set p ((m.getD p []).set s v)

/-- Read one entry of the 2-d output tensor. -/
def value2d (m : List (List ℝ)) (p s : Nat) : ℝ :=
  (m.getD p []).getD s 0

/-- `_relation_log_probs` (lines 344-377):
`target_log_probs = encoded.new_empty(*parent_ids.shape).fill_(math.log(1e-45))`
followed by one scatter per lookup group. -/
noncomputable def relationLogProbs (kg : Nat → List KGEdge)
    (logit : Nat → Nat → ℝ) (raw : List Nat) (pids : List (List Nat)) :
    List (List ℝ) :=
  (kgLookup kg pids).foldl
    (fun acc g => set2d acc g.1 g.2.1 (relationTarget kg logit raw g.1 g.2.2))
    (pids.map (fun ps => ps.map (fun _ => Real.log eps45)))

theorem set2d_length (m : List (List ℝ)) (p s : Nat) (v : ℝ) :
    (set2d m p s v).length = m.length := by
  unfold set2d
  exact List.length_set m p _

theorem set2d_row_length (m : List (List ℝ)) (p s : Nat) (v : ℝ)
    (p' : Nat) :
    ((set2d m p s v).getD p' []).length = (m.getD p' []).length := by
  unfold set2d
  by_cases hp : p = p'
  · subst hp
    by_cases hlt : p < m.length
    · rw [getD_set_self _ _ _ _ hlt, List.length_set]
    · have h1 : (m.set p ((m.getD p []).set s v)).getD p []
          = m.getD p [] := by
        rw [List.getD_eq_getElem?_getD, List.getD_eq_getElem?_getD,
          List.getElem?_set]
        simp [hlt, List.getElem?_eq_none (Nat.le_of_not_lt hlt)]
      rw [h1]
  · rw [getD_set_ne _ _ _ hp]

theorem value2d_set2d_self (m : List (List ℝ)) (p s : Nat) (v : ℝ)
    (hp : p < m.length) (hs : s < (m.getD p []).length) :
    value2d (set2d m p s v) p s = v := by
  unfold value2d set2d
  rw [getD_set_self _ _ _ _ hp, getD_set_self _ _ _ _ hs]

theorem value2d_set2d_ne (m : List (List ℝ)) (p s p' s' : Nat) (v : ℝ)
    (h : ¬(p = p' ∧ s = s')) :
    value2d (set2d m p s v) p' s' = value2d m p' s' := by
  unfold value2d set2d
  by_cases hp : p = p'
  · subst hp
    have hs : s ≠ s' := fun he => h ⟨rfl, he⟩
    by_cases hlt : p < m.length
    · rw [getD_set_self _ _ _ _ hlt, getD_set_ne _ _ _ hs]
    · have h1 : (m.set p ((m.getD p []).set s v)).getD p []
          = m.getD p [] := by
        rw [List.getD_eq_getElem?_getD, List.getD_eq_getElem?_getD,
          List.getElem?_set]
        simp [hlt, List.getElem?_eq_none (Nat.le_of_not_lt hlt)]
      rw [h1]
  · rw [getD_set_ne _ _ _ hp]

theorem fold_scatter_dims (kg : Nat → List KGEdge) (logit : Nat → Nat → ℝ)
    (raw : List Nat) (gs : List (Nat × Nat × Nat)) (m : List (List ℝ)) :
    (gs.foldl (fun acc g =>
        set2d acc g.1 g.2.1 (relationTarget kg logit raw g.1 g.2.2)) m).length
      = m.length ∧
    ∀ p', ((gs.foldl (fun acc g =>
        set2d acc g.1 g.2.1 (relationTarget kg logit raw g.1 g.2.2))
          m).getD p' []).length = (m.getD p' []).length := by
  induction gs generalizing m with
  | nil => exact ⟨rfl, fun _ => rfl⟩
  | cons g gs' ih =>
    rw [List.foldl_cons]
    obtain ⟨ih1, ih2⟩ := ih (set2d m g.1 g.2.1
      (relationTarget kg logit raw g.1 g.2.2))
    refine ⟨ih1.trans (set2d_length _ _ _ _), fun p' => ?_⟩
    rw [ih2 p', set2d_row_length]

theorem fold_scatter_not_written (kg : Nat → List KGEdge)
    (logit : Nat → Nat → ℝ) (raw : List Nat)
    (gs : List (Nat × Nat × Nat)) (m : List (List ℝ)) (pos slot : Nat)
    (h : ∀ q', (pos, slot, q') ∉ gs) :
    value2d (gs.foldl (fun acc g =>
        set2d acc g.1 g.2.1 (relationTarget kg logit raw g.1 g.2.2)) m)
        pos slot
      = value2d m pos slot := by
  induction gs generalizing m with
  | nil => rfl
  | cons g gs' ih =>
    rw [List.foldl_cons]
    rw [ih _ (fun q' hq' => h q' (List.mem_cons_of_mem _ hq'))]
    refine value2d_set2d_ne _ _ _ _ _ _ ?_
    rintro ⟨h1, h2⟩
    exact h g.2.2 (by
      rw [← h1, ← h2]
      exact List.mem_cons_self _ _)

theorem fold_scatter_written (kg : Nat → List KGEdge)
    (logit : Nat → Nat → ℝ) (raw : List Nat)
    (l1 l2 : List (Nat × Nat × Nat)) (m : List (List ℝ))
    (pos slot q : Nat)
    (hnot : ∀ q', (pos, slot, q') ∉ l2)
    (hp : pos < m.length) (hs : slot < (m.getD pos []).length) :
    value2d ((l1 ++ (pos, slot, q) :: l2).foldl (fun acc g =>
        set2d acc g.1 g.2.1 (relationTarget kg logit raw g.1 g.2.2)) m)
        pos slot
      = relationTarget kg logit raw pos q := by
  rw [List.foldl_append, List.foldl_cons]
  rw [fold_scatter_not_written kg logit raw l2 _ pos slot hnot]
  obtain ⟨hd1, hd2⟩ := fold_scatter_dims kg logit raw l1 m
  exact value2d_set2d_self _ _ _ _ (by rw [hd1]; exact hp)
    (by rw [hd2]; exact hs)

theorem mem_pairIdx {pids : List (List Nat)} {pos slot : Nat} :
    (pos, slot) ∈ pairIdx pids
      ↔ pos < pids.length ∧ slot < (pids.getD pos []).length := by
  unfold pairIdx
  simp only [List.mem_flatMap, List.mem_map, List.mem_range]
  constructor
  · rintro ⟨p, hp, s, hs, he⟩
    obtain ⟨he1, he2⟩ := Prod.mk.injEq _ _ _ _ ▸ he
    cases he
    exact ⟨hp, hs⟩
  · rintro ⟨h1, h2⟩
    exact ⟨pos, h1, slot, h2, rfl⟩

theorem mem_kgLookup {kg : Nat → List KGEdge} {pids : List (List Nat)}
    {pos slot q : Nat} :
    (pos, slot, q) ∈ kgLookup kg pids
      ↔ pos < pids.length ∧ slot < (pids.getD pos []).length ∧
        q = (pids.getD pos []).getD slot 0 ∧ q ≠ 0 ∧ kg q ≠ [] := by
  unfold kgLookup
  rw [List.mem_filterMap]
  constructor
  · rintro ⟨ps, hmem, hf⟩
    split at hf
    · rename_i hcond
      injection hf with hf'
      obtain ⟨a, b⟩ := ps
      rw [Prod.mk.injEq] at hf'
      obtain ⟨ha, hf2⟩ := hf'
      rw [Prod.mk.injEq] at hf2
      obtain ⟨hb, hq⟩ := hf2
      subst ha
      subst hb
      subst hq
      obtain ⟨h1, h2⟩ := mem_pairIdx.mp hmem
      exact ⟨h1, h2, rfl, hcond.1, hcond.2⟩
    · cases hf
  · rintro ⟨h1, h2, h3, h4, h5⟩
    refine ⟨(pos, slot), mem_pairIdx.mpr ⟨h1, h2⟩, ?_⟩
    rw [if_pos ⟨h3 ▸ h4, h3 ▸ h5⟩, ← h3]

theorem pairIdx_nodup (pids : List (List Nat)) : (pairIdx pids).Nodup := by
  unfold pairIdx
  rw [List.nodup_flatMap]
  constructor
  · intro p hp
    exact (List.nodup_range _).map (fun a b h => congrArg Prod.snd h)
  · refine (List.nodup_range _).imp ?_
    intro a b hab
    intro x hxa hxb
    obtain ⟨sa, _, hxa'⟩ := List.mem_map.mp hxa
    obtain ⟨sb, _, hxb'⟩ := List.mem_map.mp hxb
    exact hab (by
      have h1 := congrArg Prod.fst hxa'
      have h2 := congrArg Prod.fst hxb'
      simp only at h1 h2
      exact h1.trans h2.symm)

theorem kgLookup_f_key {kg : Nat → List KGEdge} {pids : List (List Nat)}
    {x : Nat × Nat} {g : Nat × Nat × Nat}
    (h : (if ((pids.getD x.1 []).getD x.2 0 ≠ 0 ∧
          kg ((pids.getD x.1 []).getD x.2 0) ≠ [])
        then some (x.1, x.2, (pids.getD x.1 []).getD x.2 0) else none)
      = some g) : (g.1, g.2.1) = x := by
  split at h
  · injection h with h'
    rw [← h']
  · cases h

theorem keys_nodup_aux (kg : Nat → List KGEdge) (pids : List (List Nat))
    (l : List (Nat × Nat)) (hnd : l.Nodup) :
    ((l.filterMap (fun ps =>
        if ((pids.getD ps.1 []).getD ps.2 0 ≠ 0 ∧
            kg ((pids.getD ps.1 []).getD ps.2 0) ≠ [])
        then some (ps.1, ps.2, (pids.getD ps.1 []).getD ps.2 0)
        else none)).map (fun g => (g.1, g.2.1))).Nodup := by
  induction l with
  | nil => simp
  | cons x l' ih =>
    obtain ⟨hx, hnd'⟩ := List.nodup_cons.mp hnd
    rw [List.filterMap_cons]
    split
    · exact ih hnd'
    · rename_i g hg
      rw [List.map_cons, List.nodup_cons]
      refine ⟨?_, ih hnd'⟩
      intro hmem
      obtain ⟨g', hg', hkey⟩ := List.mem_map.mp hmem
      obtain ⟨y, hy, hfy⟩ := List.mem_filterMap.mp hg'
      have h1 : (g'.1, g'.2.1) = y := kgLookup_f_key hfy
      have h2 : (g.1, g.2.1) = x := kgLookup_f_key hg
      have hxy : x = y := by rw [← h2, ← hkey, h1]
      exact hx (hxy ▸ hy)

theorem kgLookup_keys_nodup (kg : Nat → List KGEdge)
    (pids : List (List Nat)) :
    ((kgLookup kg pids).map (fun g => (g.1, g.2.1))).Nodup := by
  unfold kgLookup
  exact keys_nodup_aux kg pids (pairIdx pids) (pairIdx_nodup pids)

/-- C5: for every in-bounds (position, parent-slot) pair, the relation
log-probability is the finite epsilon floor `log(1e-45)` whenever the
parent id is padding (0), has zero outgoing edges, or is absent from the
graph (zero edges) — never NaN or unbounded, and no error is raised — and
otherwise it is the log-sum-exp of the per-edge softmax log-probabilities
over all edges whose tail equals the gold raw entity id at that position
(edges sharing the gold tail are summed, not arg-maxed). -/
theorem relation_log_probs_cases (kg : Nat → List KGEdge)
    (logit : Nat → Nat → ℝ) (raw : List Nat) (pids : List (List Nat))
    (pos slot : Nat) (hpos : pos < pids.length)
    (hslot : slot < (pids.getD pos []).length) :
    value2d (relationLogProbs kg logit raw pids) pos slot
      = if (pids.getD pos []).getD slot 0 = 0 ∨
            kg ((pids.getD pos []).getD slot 0) = []
        then Real.log eps45
        else logsumexp (((kg ((pids.getD pos []).getD slot 0)).zip
            (logSoftmax ((kg ((pids.getD pos []).getD slot 0)).map
              (fun e => logit pos e.rel)))).filterMap
          (fun el => if el.1.tail = raw.getD pos 0 then some el.2
            else none)) := by
  set q := (pids.getD pos []).getD slot 0 with hq
  have hinitlen : (pids.map (fun ps =>
      ps.map (fun _ => Real.log eps45))).length = pids.length :=
    List.length_map _ _
  have hinitrow : ((pids.map (fun ps =>
      ps.map (fun _ => Real.log eps45))).getD pos []).length
      = (pids.getD pos []).length := by
    rw [getD_map' _ _ _ [] _ hpos, List.length_map]
  have hinitval : value2d (pids.map (fun ps =>
      ps.map (fun _ => Real.log eps45))) pos slot = Real.log eps45 := by
    unfold value2d
    rw [getD_map' _ _ _ [] _ hpos, getD_map' _ _ _ 0 _ hslot]
  by_cases hcase : q = 0 ∨ kg q = []
  · rw [if_pos hcase]
    have hnone : ∀ q', (pos, slot, q') ∉ kgLookup kg pids := by
      intro q' hq'
      obtain ⟨_, _, h3, h4, h5⟩ := mem_kgLookup.mp hq'
      rw [← hq] at h3
      rcases hcase with hc | hc
      · exact h4 (h3.trans hc)
      · exact h5 (h3 ▸ hc)
    unfold relationLogProbs
    rw [fold_scatter_not_written kg logit raw _ _ pos slot hnone, hinitval]
  · push_neg at hcase
    rw [if_neg (by push_neg; exact hcase)]
    have hmem : (pos, slot, q) ∈ kgLookup kg pids :=
      mem_kgLookup.mpr ⟨hpos, hslot, hq, hcase.1, hcase.2⟩
    obtain ⟨l1, l2, hsplit⟩ := List.append_of_mem hmem
    have hkeys := kgLookup_keys_nodup kg pids
    rw [hsplit, List.map_append, List.map_cons] at hkeys
    have hsuffix : ((pos, slot) :: l2.map (fun g => (g.1, g.2.1))).Sublist
        (l1.map (fun g => (g.1, g.2.1))
          ++ (pos, slot) :: l2.map (fun g => (g.1, g.2.1))) :=
      List.sublist_append_right _ _
    have hkey_notmem : (pos, slot) ∉ l2.map (fun g => (g.1, g.2.1)) :=
      (List.nodup_cons.mp (hsuffix.nodup hkeys)).1
    have hnot : ∀ q', (pos, slot, q') ∉ l2 := by
      intro q' hq'
      exact hkey_notmem (List.mem_map.mpr ⟨(pos, slot, q'), hq', rfl⟩)
    unfold relationLogProbs
    rw [hsplit, fold_scatter_written kg logit raw l1 l2 _ pos slot q hnot
      (by rw [hinitlen]; exact hpos) (by rw [hinitrow]; exact hslot)]
    rfl

theorem relation_log_probs_cases_witness :
    (0 : Nat) < ([[1, 0]] : List (List Nat)).length ∧
    (0 : Nat) < (([[1, 0]] : List (List Nat)).getD 0 []).length ∧
    value2d (relationLogProbs
        (fun n => if n = 1 then [KGEdge.mk 3 7] else [])
        (fun _ _ => 0) [7] [[1, 0]]) 0 0
      = if (([[1, 0]] : List (List Nat)).getD 0 []).getD 0 0 = 0 ∨
            (fun n => if n = 1 then [KGEdge.mk 3 7] else [])
              ((([[1, 0]] : List (List Nat)).getD 0 []).getD 0 0) = []
        then Real.log eps45
        else logsumexp ((((fun n => if n = 1 then [KGEdge.mk 3 7] else [])
              ((([[1, 0]] : List (List Nat)).getD 0 []).getD 0 0)).zip
            (logSoftmax (((fun n => if n = 1 then [KGEdge.mk 3 7] else [])
                ((([[1, 0]] : List (List Nat)).getD 0 []).getD 0 0)).map
              (fun e => (fun _ _ => (0 : ℝ)) 0 e.rel)))).filterMap
          (fun el => if el.1.tail = ([7] : List Nat).getD 0 0 then some el.2
            else none)) :=
  ⟨by decide, by decide,
    relation_log_probs_cases
      (fun n => if n = 1 then [KGEdge.mk 3 7] else [])
      (fun _ _ => 0) [7] [[1, 0]] 0 0 (by decide) (by decide)⟩
